import Mathlib

/-!
Verification of the Pico-GB display/audio pipeline (src/src/main.c).

The development shallowly embeds the cross-core rendering pipeline of the
emulator: the dirty-line filter `lcd_draw_line`, the inter-core command
channel, the display core's command loop `main_core1` /
`core1_lcd_draw_line`, the shared busy flag `lcd_line_busy`, and the
per-frame audio path of `main`.  Pure fragments of the C code become Lean
functions; the two-core execution is an explicit step relation on a state
record.  Machine integers are `Nat` with explicit `% 2 ^ 32` where wraparound
matters.
-/

set_option maxRecDepth 100000

namespace PicoGB

/-- Modelled from the spec: width of one scanline in bytes (DMG LCD width,
160); the header `peanut_gb.h` defining `LCD_WIDTH` is not under src. -/
def LCD_WIDTH : Nat := 160

/-- Modelled from the spec: number of display rows H (DMG LCD height, 144);
the header `peanut_gb.h` defining `LCD_HEIGHT` is not under src. -/
def LCD_HEIGHT : Nat := 144

/-- Modelled from the spec: mask of the palette-selector bits of a raw pixel
byte (2 bits of colour index + palette-row selector); `LCD_PALETTE_ALL` is
defined in `peanut_gb.h`, not under src. -/
def LCD_PALETTE_ALL : Nat := 0x30

/-- Command kind `CORE_CMD_NOP` (does nothing), from `union core_cmd`. -/
def CORE_CMD_NOP : Nat := 0

/-- Command kind `CORE_CMD_LCD_LINE` (draw line `data`), from
`union core_cmd`. -/
def CORE_CMD_LCD_LINE : Nat := 1

/-- Command kind `CORE_CMD_IDLE_SET` (control LCD idle mode), from
`union core_cmd`. -/
def CORE_CMD_IDLE_SET : Nat := 2

/-- Command kind `CORE_CMD_SET_PIXEL` — declared in `union core_cmd` but
never handled by `main_core1`. -/
def CORE_CMD_SET_PIXEL : Nat := 3

/-- One multicore command, the `union core_cmd` of main.c: a command-kind
byte `cmd` and a payload byte `data` (the two unused bytes are dropped). -/
structure CoreCmdRaw where
  cmd : Nat
  data : Nat
deriving DecidableEq, Repr

/-- Modelled from the spec: the checksum the DMA sniffer accumulates while
`lcd_draw_line` copies a scanline into `pixels_buffer`.  The sniffer
hardware is not repository code; the spec's stated software fallback is "a
running XOR/rotate accumulator" that is deterministic on the byte sequence
and order-sensitive.  The accumulator is seeded with 0, matching
`dma_hw->sniff_data = 0` in `lcd_draw_line`: each step rotates the 32-bit
accumulator left by one and XORs in the next byte. -/
def sniff_hash (bytes : List Nat) : Nat :=
  bytes.foldl (fun acc b => ((acc * 2 + acc / 2 ^ 31) % 2 ^ 32) ^^^ (b % 256)) 0

/-- The per-call dirty-line filter of `lcd_draw_line` (main.c lines
341–368), after the busy-wait and the hash-accumulating copy: given the
hash table `gb_priv.lcd_line_hashes` (as a function from row to stored
hash), the copied scanline `px` and the row `line`, it either suppresses
the line (hash table unchanged, no command) or stores the new hash and
produces the single `CORE_CMD_LCD_LINE` command that is pushed to core 1. -/
def lcd_draw_line (hashes : Nat → Nat) (px : List Nat) (line : Nat) :
    (Nat → Nat) × Option CoreCmdRaw :=
  if hashes line = sniff_hash px then
    (hashes, none)
  else
    (Function.update hashes line (sniff_hash px),
     some { cmd := CORE_CMD_LCD_LINE, data := line })

/-- C2: for every row and scanline content, if the new hash equals the
stored `lcd_line_hashes[line]` then `lcd_draw_line` suppresses the line —
it returns without enqueuing any command and leaves the hash table
unchanged; if it differs, it updates `lcd_line_hashes[line]` to the new
hash and enqueues exactly one `CORE_CMD_LCD_LINE` command for that row. -/
theorem lcd_draw_line_filter (hashes : Nat → Nat) (px : List Nat) (line : Nat)
    (_hl : line < LCD_HEIGHT) :
    (hashes line = sniff_hash px → lcd_draw_line hashes px line = (hashes, none)) ∧
    (hashes line ≠ sniff_hash px →
      lcd_draw_line hashes px line =
        (Function.update hashes line (sniff_hash px),
         some { cmd := CORE_CMD_LCD_LINE, data := line })) := by
  constructor
  · intro h
    simp [lcd_draw_line, h]
  · intro h
    simp [lcd_draw_line, h]

/-- Witness for C2: with a zeroed hash table and an all-zero scanline the
hash matches and row 5 is suppressed. -/
theorem lcd_draw_line_filter_witness :
    (5 < LCD_HEIGHT ∧ (fun _ => (0 : Nat)) 5 = sniff_hash (List.replicate LCD_WIDTH 0)) ∧
    lcd_draw_line (fun _ => 0) (List.replicate LCD_WIDTH 0) 5 = ((fun _ => 0), none) :=
  ⟨⟨by decide, by decide⟩,
   (lcd_draw_line_filter (fun _ => 0) (List.replicate LCD_WIDTH 0) 5 (by decide)).1 (by decide)⟩

/-- C5: idempotence of the render path — running `lcd_draw_line` twice in a
row on byte-identical scanline content computes the same (deterministic)
hash both times, so the second call is suppressed: it enqueues no command
and leaves the hash table exactly as the first call left it. -/
theorem lcd_draw_line_idempotent (hashes : Nat → Nat) (px : List Nat) (line : Nat) :
    lcd_draw_line (lcd_draw_line hashes px line).1 px line =
      ((lcd_draw_line hashes px line).1, none) := by
  by_cases h : hashes line = sniff_hash px
  · simp [lcd_draw_line, h]
  · simp [lcd_draw_line, h, Function.update_same]

/-- C4 counterexample: the claim "every one of the H rendered lines is
forwarded on the first frame, for every possible first-frame pixel content"
fails: with the zero-initialised hash table, a first-frame scanline of
all-zero bytes hashes to 0, which equals the initial table entry, so the
line is suppressed and no command is enqueued. -/
theorem first_frame_zero_hash_suppressed :
    (lcd_draw_line (fun _ => 0) (List.replicate LCD_WIDTH 0) 0).2 = none := by
  decide

/-- C4 (amended): at startup `lcd_line_hashes` is zero-initialised
(`static struct gb_priv gb_priv = { 0 }`), so on the first frame every
scanline whose content hashes to a nonzero value mismatches the table and
is forwarded as a `CORE_CMD_LCD_LINE` command; only content whose hash is
exactly 0 collides with the initial table and is suppressed. -/
theorem first_frame_forwards_nonzero_hash (px : List Nat) (line : Nat)
    (_hl : line < LCD_HEIGHT) (h0 : sniff_hash px ≠ 0) :
    lcd_draw_line (fun _ => 0) px line =
      (Function.update (fun _ => 0) line (sniff_hash px),
       some { cmd := CORE_CMD_LCD_LINE, data := line }) := by
  have h : ((fun _ => (0 : Nat)) line) ≠ sniff_hash px := fun h => h0 h.symm
  simp [lcd_draw_line, h]

/-- Witness for the amended C4: a first-frame all-ones scanline has nonzero
hash and row 0 is forwarded. -/
theorem first_frame_forwards_nonzero_hash_witness :
    (0 < LCD_HEIGHT ∧ sniff_hash (List.replicate LCD_WIDTH 1) ≠ 0) ∧
    lcd_draw_line (fun _ => 0) (List.replicate LCD_WIDTH 1) 0 =
      (Function.update (fun _ => 0) 0 (sniff_hash (List.replicate LCD_WIDTH 1)),
       some { cmd := CORE_CMD_LCD_LINE, data := 0 }) :=
  ⟨⟨by decide, by decide⟩,
   first_frame_forwards_nonzero_hash (List.replicate LCD_WIDTH 1) 0 (by decide) (by decide)⟩

/-- A whole sequence of per-scanline calls on the emulation core: each call
carries a row and the rendered scanline bytes.  `run_lines` threads the
hash table through successive `lcd_draw_line` calls and collects, in
chronological order, the calls that were actually forwarded (those that
enqueued a `CORE_CMD_LCD_LINE` command). -/
def run_lines (hashes : Nat → Nat) :
    List (Nat × List Nat) → (Nat → Nat) × List (Nat × List Nat)
  | [] => (hashes, [])
  | c :: rest =>
      let r := lcd_draw_line hashes c.2 c.1
      let t := run_lines r.1 rest
      (t.1, (if (r.2).isSome then [c] else []) ++ t.2)

/-- The scanline content most recently forwarded for row `r` in a
chronologically ordered forwarded-call log (later entries take
precedence). -/
def lastSent (r : Nat) : List (Nat × List Nat) → Option (List Nat)
  | [] => none
  | c :: rest =>
      match lastSent r rest with
      | some px => some px
      | none => if c.1 = r then some c.2 else none

/-- After any sequence of per-scanline calls, the stored hash of row `r` is
the hash of the last scanline forwarded for `r`, or the initial table entry
if `r` was never forwarded. -/
theorem run_lines_last_hash (hashes : Nat → Nat)
    (calls : List (Nat × List Nat)) (r : Nat) :
    (run_lines hashes calls).1 r =
      match lastSent r (run_lines hashes calls).2 with
      | some px => sniff_hash px
      | none => hashes r := by
  induction calls generalizing hashes with
  | nil => simp [run_lines, lastSent]
  | cons c rest ih =>
      by_cases h : hashes c.1 = sniff_hash c.2
      · simpa [run_lines, lcd_draw_line, h] using ih hashes
      · have ih2 := ih (Function.update hashes c.1 (sniff_hash c.2))
        simp only [run_lines, lcd_draw_line, if_neg h, Option.isSome_some,
          if_pos, List.singleton_append] at ih2 ⊢
        rw [ih2]
        cases hlast :
            lastSent r (run_lines (Function.update hashes c.1 (sniff_hash c.2)) rest).2 with
        | some px => simp [lastSent, hlast]
        | none =>
            by_cases hr : c.1 = r
            · subst hr
              simp [lastSent, hlast, Function.update_same]
            · simp [lastSent, hlast, hr, Function.update_noteq (Ne.symm hr)]

/-- C3: invariant of the per-scanline path — for every row `r` that has
been forwarded at least once, `lcd_line_hashes[r]` equals the hash of the
last scanline content that was actually transmitted (enqueued as a
`CORE_CMD_LCD_LINE` command) for row `r`; suppressed lines never touch the
table. -/
theorem lcd_line_hashes_track_last_sent (hashes : Nat → Nat)
    (calls : List (Nat × List Nat)) (r : Nat) (px : List Nat)
    (h : lastSent r (run_lines hashes calls).2 = some px) :
    (run_lines hashes calls).1 r = sniff_hash px := by
  have := run_lines_last_hash hashes calls r
  rw [h] at this
  exact this

/-- Witness for C3: one forwarded call for row 0 leaves the table holding
that scanline's hash. -/
theorem lcd_line_hashes_track_last_sent_witness :
    lastSent 0 (run_lines (fun _ => 0) [(0, List.replicate LCD_WIDTH 1)]).2 =
      some (List.replicate LCD_WIDTH 1) ∧
    (run_lines (fun _ => 0) [(0, List.replicate LCD_WIDTH 1)]).1 0 =
      sniff_hash (List.replicate LCD_WIDTH 1) :=
  ⟨by decide,
   lcd_line_hashes_track_last_sent (fun _ => 0) [(0, List.replicate LCD_WIDTH 1)] 0
     (List.replicate LCD_WIDTH 1) (by decide)⟩

/-- Observable state of the display-driving core (core 1): the shared busy
flag `lcd_line_busy`, the LCD idle/colour mode last set through
`mk_ili9225_display_control`, the x-address last set through
`mk_ili9225_set_x`, and the log of translated pixel lines written to the
LCD bus with `mk_ili9225_write_pixels`. -/
structure Core1State where
  lcd_line_busy : Bool
  display_idle : Nat
  lcd_x : Nat
  lcd_writes : List (List Nat)
deriving DecidableEq, Repr

/-- `core1_lcd_draw_line` (main.c lines 232–257, `USE_DMA = 0` path): each
raw pixel byte of `pixels_buffer` is translated through the two-level
colour lookup `palette[(b & LCD_PALETTE_ALL) >> 4][b & 3]` into the
frame-buffer line `fb`, the LCD x-address is set to `line + 16`, `fb` is
written to the bus, and the busy flag is cleared. -/
def core1_lcd_draw_line (palette : Nat → Nat → Nat) (pxbuf : List Nat)
    (line : Nat) (s : Core1State) : Core1State :=
  let fb := pxbuf.map (fun b => palette ((b &&& LCD_PALETTE_ALL) >>> 4) (b &&& 3))
  { s with lcd_x := line + 16,
           lcd_writes := s.lcd_writes ++ [fb],
           lcd_line_busy := false }

/-- The dispatch of one command in `main_core1`'s command loop (main.c
lines 317–334): `CORE_CMD_LCD_LINE` draws the line, `CORE_CMD_IDLE_SET`
calls `mk_ili9225_display_control(true, cmd.data)`, and `CORE_CMD_NOP` and
every other kind fall through to `default: break`. -/
def core1_handle_cmd (palette : Nat → Nat → Nat) (pxbuf : List Nat)
    (c : CoreCmdRaw) (s : Core1State) : Core1State :=
  if c.cmd = CORE_CMD_LCD_LINE then
    core1_lcd_draw_line palette pxbuf c.data s
  else if c.cmd = CORE_CMD_IDLE_SET then
    { s with display_idle := c.data }
  else
    s

/-- The command loop of `main_core1` run over a queue of commands in FIFO
order. -/
def core1_run (palette : Nat → Nat → Nat) (pxbuf : List Nat) :
    List CoreCmdRaw → Core1State → Core1State
  | [], s => s
  | c :: cs, s => core1_run palette pxbuf cs (core1_handle_cmd palette pxbuf c s)

/-- C7: any command whose kind is not `CORE_CMD_LCD_LINE` and not
`CORE_CMD_IDLE_SET` — `CORE_CMD_NOP`, the declared-but-unhandled
`CORE_CMD_SET_PIXEL`, and every out-of-range kind — is a no-op in the
display core's command loop: it leaves the busy flag, the display state
and all other state unchanged, and the loop simply proceeds to the next
command. -/
theorem core1_unhandled_cmd_noop (palette : Nat → Nat → Nat) (pxbuf : List Nat)
    (c : CoreCmdRaw) (cs : List CoreCmdRaw) (s : Core1State)
    (h1 : c.cmd ≠ CORE_CMD_LCD_LINE) (h2 : c.cmd ≠ CORE_CMD_IDLE_SET) :
    core1_handle_cmd palette pxbuf c s = s ∧
    core1_run palette pxbuf (c :: cs) s = core1_run palette pxbuf cs s := by
  have hnoop : core1_handle_cmd palette pxbuf c s = s := by
    simp [core1_handle_cmd, h1, h2]
  exact ⟨hnoop, by simp [core1_run, hnoop]⟩

/-- Witness for C7: a `CORE_CMD_SET_PIXEL` command leaves a concrete core-1
state untouched and the loop moves on. -/
theorem core1_unhandled_cmd_noop_witness :
    (CORE_CMD_SET_PIXEL ≠ CORE_CMD_LCD_LINE ∧ CORE_CMD_SET_PIXEL ≠ CORE_CMD_IDLE_SET) ∧
    core1_handle_cmd (fun _ _ => 0) [] { cmd := CORE_CMD_SET_PIXEL, data := 7 }
        { lcd_line_busy := true, display_idle := 0, lcd_x := 0, lcd_writes := [] } =
      { lcd_line_busy := true, display_idle := 0, lcd_x := 0, lcd_writes := [] } :=
  ⟨⟨by decide, by decide⟩,
   (core1_unhandled_cmd_noop (fun _ _ => 0) [] { cmd := CORE_CMD_SET_PIXEL, data := 7 } []
     { lcd_line_busy := true, display_idle := 0, lcd_x := 0, lcd_writes := [] }
     (by decide) (by decide)).1⟩

/-- The draw-relevant view of a core-1 state: everything except the idle
colour mode — the busy flag, the x-address and the written pixel lines. -/
def drawView (s : Core1State) : Bool × Nat × List (List Nat) :=
  (s.lcd_line_busy, s.lcd_x, s.lcd_writes)

/-- Handling any single command preserves agreement of the draw-relevant
view: two states that differ at most in `display_idle` still do after one
dispatch, because drawing never reads the idle mode. -/
theorem core1_handle_cmd_drawView (palette : Nat → Nat → Nat) (pxbuf : List Nat)
    (c : CoreCmdRaw) (s1 s2 : Core1State) (h : drawView s1 = drawView s2) :
    drawView (core1_handle_cmd palette pxbuf c s1) =
      drawView (core1_handle_cmd palette pxbuf c s2) := by
  have hb : s1.lcd_line_busy = s2.lcd_line_busy := congrArg Prod.fst h
  have hx : s1.lcd_x = s2.lcd_x := congrArg (fun p => p.2.1) h
  have hw : s1.lcd_writes = s2.lcd_writes := congrArg (fun p => p.2.2) h
  by_cases h1 : c.cmd = CORE_CMD_LCD_LINE
  · simp_all [core1_handle_cmd, core1_lcd_draw_line, drawView]
  · by_cases h2 : c.cmd = CORE_CMD_IDLE_SET <;>
      simp_all [core1_handle_cmd, drawView]

/-- Running any command list preserves agreement of the draw-relevant
view. -/
theorem core1_run_drawView (palette : Nat → Nat → Nat) (pxbuf : List Nat)
    (cs : List CoreCmdRaw) (s1 s2 : Core1State) (h : drawView s1 = drawView s2) :
    drawView (core1_run palette pxbuf cs s1) =
      drawView (core1_run palette pxbuf cs s2) := by
  induction cs generalizing s1 s2 with
  | nil => simpa [core1_run] using h
  | cons c cs ih =>
      simp only [core1_run]
      exact ih _ _ (core1_handle_cmd_drawView palette pxbuf c s1 s2 h)

/-- Running an appended command list is running the two parts in
sequence. -/
theorem core1_run_append (palette : Nat → Nat → Nat) (pxbuf : List Nat)
    (a b : List CoreCmdRaw) (s : Core1State) :
    core1_run palette pxbuf (a ++ b) s =
      core1_run palette pxbuf b (core1_run palette pxbuf a s) := by
  induction a generalizing s with
  | nil => simp [core1_run]
  | cons c cs ih => simp [core1_run, ih]

/-- C8: a `CORE_CMD_IDLE_SET` command changes only the display colour-depth
mode — the dispatch maps the state to itself with `display_idle` replaced —
and inserting it anywhere into a command queue leaves the busy flag, the
LCD x-address and the whole sequence of drawn pixel lines (hence the
processing order of every `CORE_CMD_LCD_LINE` before or after it)
unchanged. -/
theorem set_idle_mode_effect (palette : Nat → Nat → Nat) (pxbuf : List Nat)
    (d : Nat) (s : Core1State) (xs ys : List CoreCmdRaw) :
    core1_handle_cmd palette pxbuf { cmd := CORE_CMD_IDLE_SET, data := d } s =
      { s with display_idle := d } ∧
    drawView (core1_run palette pxbuf (xs ++ { cmd := CORE_CMD_IDLE_SET, data := d } :: ys) s) =
      drawView (core1_run palette pxbuf (xs ++ ys) s) := by
  constructor
  · simp [core1_handle_cmd, CORE_CMD_IDLE_SET, CORE_CMD_LCD_LINE]
  · rw [core1_run_append, core1_run_append]
    simp only [core1_run]
    apply core1_run_drawView
    simp [core1_handle_cmd, CORE_CMD_IDLE_SET, CORE_CMD_LCD_LINE, drawView]

/-- An observable audio action of the main loop: synthesising one frame of
interleaved stereo samples into a buffer (`audio_callback(NULL, stream,
AUDIO_BUFFER_SIZE_BYTES)`) or submitting a buffer to the audio transport
(`i2s_dma_write(&i2s_config, stream)`).  Buffers are identified by their
allocation. -/
inductive AudioEvent where
  | synth (buf : Nat)
  | submit (buf : Nat)
deriving DecidableEq, Repr

/-- The single audio sample buffer: `stream` is `malloc`ed exactly once in
`main` before the frame loop starts, and the pointer is never changed. -/
def stream_buf : Nat := 0

/-- The audio actions of one iteration of `main`'s frame loop (main.c lines
564–567): after the emulated frame completes, one synthesis call into
`stream` followed by one submission of `stream`. -/
def frame_audio_body : List AudioEvent :=
  [AudioEvent.synth stream_buf, AudioEvent.submit stream_buf]

/-- The audio actions of the first `n` iterations of `main`'s frame loop,
in order. -/
def main_loop_audio_trace : Nat → List AudioEvent
  | 0 => []
  | n + 1 => main_loop_audio_trace n ++ frame_audio_body

/-- The audio actions belonging to frame `n` of the main loop. -/
def frame_audio_events (n : Nat) : List AudioEvent :=
  (main_loop_audio_trace (n + 1)).drop (main_loop_audio_trace n).length

/-- The buffers submitted to the audio transport by a list of audio
actions, in order. -/
def submitted_bufs (evs : List AudioEvent) : List Nat :=
  evs.filterMap fun e =>
    match e with
    | AudioEvent.submit b => some b
    | AudioEvent.synth _ => none

/-- The buffers synthesised into by a list of audio actions, in order. -/
def synth_bufs (evs : List AudioEvent) : List Nat :=
  evs.filterMap fun e =>
    match e with
    | AudioEvent.synth b => some b
    | AudioEvent.submit _ => none

/-- C9 counterexample: the claim that consecutive frames use different
buffers (double buffering) fails — the buffer submitted to the audio
transport for frame 0 and the buffer into which frame 1's samples are
synthesised are one and the same `stream` allocation. -/
theorem audio_double_buffering_counterexample :
    submitted_bufs (frame_audio_events 0) = [stream_buf] ∧
    synth_bufs (frame_audio_events 1) = [stream_buf] := by
  decide

/-- C9 (amended): the audio path is single-buffered — every frame of the
main loop performs exactly one synthesis call followed by exactly one
submission, both on the same single `stream` allocation, so frame N+1 is
synthesised into the very buffer submitted for frame N (sequentially,
after the submission call of frame N has returned). -/
theorem audio_single_buffer_per_frame (n : Nat) :
    frame_audio_events n =
      [AudioEvent.synth stream_buf, AudioEvent.submit stream_buf] := by
  show (main_loop_audio_trace (n + 1)).drop (main_loop_audio_trace n).length = _
  rw [show main_loop_audio_trace (n + 1) =
        main_loop_audio_trace n ++ frame_audio_body from rfl]
  rw [List.drop_left]
  rfl

/-- One operation attempted on the inter-core command FIFO. -/
inductive ChanOp where
  | push (v : Nat)
  | pop
deriving DecidableEq, Repr

/-- Modelled from the spec: capacity of the hardware inter-core FIFO used
by `multicore_fifo_push_blocking` / `multicore_fifo_pop_blocking` (the SDK
and hardware are not repository code; the spec gives "hardware-enforced
capacity (small, e.g. 4–8 entries)" of 32-bit words). -/
def FIFO_DEPTH : Nat := 8

/-- Modelled from the spec: the state of the inter-core command channel —
its current queue of 32-bit words plus the history of every word ever
pushed and every word ever popped, in order. -/
structure ChanState where
  queue : List Nat
  pushed : List Nat
  popped : List Nat
deriving DecidableEq, Repr

/-- Modelled from the spec: one blocking FIFO operation.
`multicore_fifo_push_blocking` inserts at the tail once there is room and
never drops; `multicore_fifo_pop_blocking` removes and returns the oldest
entry once one is available.  `none` means the operation cannot complete
yet (the calling core busy-waits). -/
def chan_step (s : ChanState) : ChanOp → Option ChanState
  | ChanOp.push v =>
      if s.queue.length < FIFO_DEPTH then
        some { s with queue := s.queue ++ [v], pushed := s.pushed ++ [v] }
      else
        none
  | ChanOp.pop =>
      match s.queue with
      | [] => none
      | v :: rest => some { s with queue := rest, popped := s.popped ++ [v] }

/-- Running a sequence of channel operations; `none` if some operation in
the sequence blocks. -/
def chan_run (s : ChanState) : List ChanOp → Option ChanState
  | [] => some s
  | op :: ops =>
      match chan_step s op with
      | some s1 => chan_run s1 ops
      | none => none

/-- Each completed channel operation preserves the channel invariant that
the push history equals the pop history followed by the current queue. -/
theorem chan_step_inv (s t : ChanState) (op : ChanOp)
    (hinv : s.pushed = s.popped ++ s.queue) (h : chan_step s op = some t) :
    t.pushed = t.popped ++ t.queue := by
  cases op with
  | push v =>
      simp only [chan_step] at h
      by_cases hroom : s.queue.length < FIFO_DEPTH
      · rw [if_pos hroom] at h
        cases h
        simp [hinv]
      · rw [if_neg hroom] at h
        cases h
  | pop =>
      cases hq : s.queue with
      | nil => simp [chan_step, hq] at h
      | cons v rest =>
          simp only [chan_step, hq] at h
          cases h
          simp only [hq] at hinv
          simp [hinv]

/-- Any completed run of channel operations preserves the channel
invariant. -/
theorem chan_run_inv (ops : List ChanOp) (s t : ChanState)
    (hinv : s.pushed = s.popped ++ s.queue) (h : chan_run s ops = some t) :
    t.pushed = t.popped ++ t.queue := by
  induction ops generalizing s with
  | nil =>
      simp only [chan_run, Option.some.injEq] at h
      exact h ▸ hinv
  | cons op ops ih =>
      simp only [chan_run] at h
      cases hstep : chan_step s op with
      | none => rw [hstep] at h; cases h
      | some s1 =>
          rw [hstep] at h
          exact ih s1 (chan_step_inv s s1 op hinv hstep) h

/-- C6: the command channel is a FIFO that never drops data — starting from
an empty channel, after any completed interleaving of blocking pushes and
pops, the sequence of pushed words equals the sequence of popped words
followed by the words still queued: every pop returns the oldest queued
entry, pops occur in exactly push order regardless of consumer timing, and
no word is lost. -/
theorem chan_fifo_order (ops : List ChanOp) (t : ChanState)
    (h : chan_run { queue := [], pushed := [], popped := [] } ops = some t) :
    t.pushed = t.popped ++ t.queue :=
  chan_run_inv ops { queue := [], pushed := [], popped := [] } t (by simp) h

/-- Witness for C6: pushing 10, 20, 30 with interleaved pops pops them in
the same order and drops nothing. -/
theorem chan_fifo_order_witness :
    chan_run { queue := [], pushed := [], popped := [] }
        [ChanOp.push 10, ChanOp.push 20, ChanOp.pop, ChanOp.push 30,
         ChanOp.pop, ChanOp.pop] =
      some { queue := [], pushed := [10, 20, 30], popped := [10, 20, 30] } ∧
    ([10, 20, 30] : List Nat) = [10, 20, 30] ++ ([] : List Nat) :=
  ⟨by decide,
   chan_fifo_order
     [ChanOp.push 10, ChanOp.push 20, ChanOp.pop, ChanOp.push 30,
      ChanOp.pop, ChanOp.pop]
     { queue := [], pushed := [10, 20, 30], popped := [10, 20, 30] }
     (by decide)⟩

/-- Program position of the emulation core (core 0) inside or between
calls of `lcd_draw_line`:
`pwait` — between calls, or spinning in the busy-wait loop (line 347);
`pcopy` — observed the flag clear, about to run the hash-accumulating DMA
copy of scanline `px` for row `line` into `pixels_buffer` (lines 351–355);
`pcheck` — copy finished, about to compare the sniffed hash with the
stored one (line 357);
`psetbusy` — hash stored (line 360), about to set `lcd_line_busy` (line
366);
`ppush` — flag set, about to push the `CORE_CMD_LCD_LINE` command (line
367). -/
inductive ProdPC where
  | pwait
  | pcopy (line : Nat) (px : List Nat)
  | pcheck (line : Nat) (px : List Nat)
  | psetbusy (line : Nat)
  | ppush (line : Nat)
deriving DecidableEq, Repr

/-- Program position of the display core (core 1) in `main_core1`'s
command loop: `cwait` — blocked on `multicore_fifo_pop_blocking`; `cdraw` —
executing `core1_lcd_draw_line line`, busy flag not yet cleared. -/
inductive ConsPC where
  | cwait
  | cdraw (line : Nat)
deriving DecidableEq, Repr

/-- The shared state of the two-core pipeline: the busy flag
`lcd_line_busy`, the inter-core FIFO contents, the hash table
`gb_priv.lcd_line_hashes`, the shared scanline buffer `pixels_buffer`, the
two cores' program positions, and the LCD idle mode last applied by
core 1. -/
structure SysState where
  lcd_line_busy : Bool
  fifo : List CoreCmdRaw
  lcd_line_hashes : Nat → Nat
  pixels_buffer : List Nat
  prod : ProdPC
  cons : ConsPC
  display_idle : Nat

/-- One interleaved step of the two-core pipeline.  Producer steps follow
`lcd_draw_line` (plus the serial-monitor `'c'` handler in `main`, which
pushes a `CORE_CMD_IDLE_SET` from core 0 between frames); consumer steps
follow `main_core1`'s command loop with the synchronous (`USE_DMA = 0`)
`core1_lcd_draw_line`, whose final action is the completion path that
clears the busy flag. -/
inductive Step : SysState → SysState → Prop where
  | prod_begin_line (s : SysState) (line : Nat) (px : List Nat)
      (hb : s.lcd_line_busy = false) (hp : s.prod = ProdPC.pwait)
      (hl : line < LCD_HEIGHT) (hw : px.length = LCD_WIDTH) :
      Step s { s with prod := ProdPC.pcopy line px }
  | prod_copy (s : SysState) (line : Nat) (px : List Nat)
      (hp : s.prod = ProdPC.pcopy line px) :
      Step s { s with pixels_buffer := px, prod := ProdPC.pcheck line px }
  | prod_suppress (s : SysState) (line : Nat) (px : List Nat)
      (hp : s.prod = ProdPC.pcheck line px)
      (hh : s.lcd_line_hashes line = sniff_hash px) :
      Step s { s with prod := ProdPC.pwait }
  | prod_update (s : SysState) (line : Nat) (px : List Nat)
      (hp : s.prod = ProdPC.pcheck line px)
      (hh : s.lcd_line_hashes line ≠ sniff_hash px) :
      Step s { s with
        lcd_line_hashes := Function.update s.lcd_line_hashes line (sniff_hash px),
        prod := ProdPC.psetbusy line }
  | prod_set_busy (s : SysState) (line : Nat)
      (hp : s.prod = ProdPC.psetbusy line) :
      Step s { s with lcd_line_busy := true, prod := ProdPC.ppush line }
  | prod_push (s : SysState) (line : Nat)
      (hp : s.prod = ProdPC.ppush line) (hroom : s.fifo.length < FIFO_DEPTH) :
      Step s { s with fifo := s.fifo ++ [{ cmd := CORE_CMD_LCD_LINE, data := line }],
                      prod := ProdPC.pwait }
  | prod_push_idle (s : SysState) (d : Nat)
      (hp : s.prod = ProdPC.pwait) (hroom : s.fifo.length < FIFO_DEPTH) :
      Step s { s with fifo := s.fifo ++ [{ cmd := CORE_CMD_IDLE_SET, data := d }] }
  | cons_pop_draw (s : SysState) (c : CoreCmdRaw) (rest : List CoreCmdRaw)
      (hc : s.cons = ConsPC.cwait) (hq : s.fifo = c :: rest)
      (hk : c.cmd = CORE_CMD_LCD_LINE) :
      Step s { s with fifo := rest, cons := ConsPC.cdraw c.data }
  | cons_pop_idle (s : SysState) (c : CoreCmdRaw) (rest : List CoreCmdRaw)
      (hc : s.cons = ConsPC.cwait) (hq : s.fifo = c :: rest)
      (hk : c.cmd = CORE_CMD_IDLE_SET) :
      Step s { s with fifo := rest, display_idle := c.data }
  | cons_pop_other (s : SysState) (c : CoreCmdRaw) (rest : List CoreCmdRaw)
      (hc : s.cons = ConsPC.cwait) (hq : s.fifo = c :: rest)
      (hk1 : c.cmd ≠ CORE_CMD_LCD_LINE) (hk2 : c.cmd ≠ CORE_CMD_IDLE_SET) :
      Step s { s with fifo := rest }
  | cons_draw_done (s : SysState) (line : Nat)
      (hc : s.cons = ConsPC.cdraw line) :
      Step s { s with lcd_line_busy := false, cons := ConsPC.cwait }

/-- The startup state: flag clear (`static int lcd_line_busy = 0`), FIFO
empty, hash table zeroed (`static struct gb_priv gb_priv = { 0 }`),
`pixels_buffer` zeroed (static storage), both cores at their loop heads. -/
def init_state : SysState :=
  { lcd_line_busy := false
    fifo := []
    lcd_line_hashes := fun _ => 0
    pixels_buffer := List.replicate LCD_WIDTH 0
    prod := ProdPC.pwait
    cons := ConsPC.cwait
    display_idle := 0 }

/-- States reachable from startup by interleaved steps of the two cores. -/
inductive Reachable : SysState → Prop where
  | init : Reachable init_state
  | step {s t : SysState} : Reachable s → Step s t → Reachable t

/-- Number of `CORE_CMD_LCD_LINE` commands currently in the FIFO. -/
def drawCount : List CoreCmdRaw → Nat
  | [] => 0
  | c :: rest => (if c.cmd = CORE_CMD_LCD_LINE then 1 else 0) + drawCount rest

/-- One if the producer holds the claim on the channel (flag already set,
push pending). -/
def prodTok : ProdPC → Nat
  | ProdPC.pwait => 0
  | ProdPC.pcopy _ _ => 0
  | ProdPC.pcheck _ _ => 0
  | ProdPC.psetbusy _ => 0
  | ProdPC.ppush _ => 1

/-- One if the consumer is executing a draw whose completion path has not
yet cleared the flag. -/
def consTok : ConsPC → Nat
  | ConsPC.cwait => 0
  | ConsPC.cdraw _ => 1

/-- Number of outstanding draw commands: queued in the FIFO, claimed by
the producer after setting the flag, or being drawn by the consumer. -/
def outstanding (s : SysState) : Nat :=
  drawCount s.fifo + prodTok s.prod + consTok s.cons

/-- The producer is past the busy-wait but has not yet set the flag. -/
def prodMid : ProdPC → Prop
  | ProdPC.pwait => False
  | ProdPC.pcopy _ _ => True
  | ProdPC.pcheck _ _ => True
  | ProdPC.psetbusy _ => True
  | ProdPC.ppush _ => False

/-- System invariant: the number of outstanding draw commands is 1 when
the busy flag is set and 0 when it is clear (so at most one is ever
outstanding, and the flag is set exactly while one is), and while the
producer is between the busy-wait and the flag write, none is
outstanding. -/
def SysInv (s : SysState) : Prop :=
  outstanding s = (if s.lcd_line_busy then 1 else 0) ∧
  (prodMid s.prod → outstanding s = 0)

/-- `drawCount` distributes over append. -/
theorem drawCount_append (a b : List CoreCmdRaw) :
    drawCount (a ++ b) = drawCount a + drawCount b := by
  induction a with
  | nil => simp [drawCount]
  | cons c rest ih => simp [drawCount, ih]; omega

/-- Every interleaved step preserves the system invariant. -/
theorem step_inv {s t : SysState} (hinv : SysInv s) (hs : Step s t) : SysInv t := by
  obtain ⟨busy, fifo, hashes, pxbuf, prod, cons, idle⟩ := s
  obtain ⟨h1, h2⟩ := hinv
  simp only [SysInv, outstanding] at h1 h2 ⊢
  cases hs with
  | prod_begin_line line px hb hp hl hw =>
      simp only at hb hp
      subst hb hp
      simp_all [prodTok, prodMid]
  | prod_copy line px hp =>
      simp only at hp
      subst hp
      simp_all [prodTok, prodMid]
  | prod_suppress line px hp hh =>
      simp only at hp
      subst hp
      simp_all [prodTok, prodMid]
  | prod_update line px hp hh =>
      simp only at hp
      subst hp
      simp_all [prodTok, prodMid]
  | prod_set_busy line hp =>
      simp only at hp
      subst hp
      cases busy <;> simp_all [prodTok, prodMid]
  | prod_push line hp hroom =>
      simp only at hp
      subst hp
      cases busy <;>
        simp_all [prodTok, prodMid, drawCount_append, drawCount,
          CORE_CMD_LCD_LINE]
  | prod_push_idle d hp hroom =>
      simp only at hp
      subst hp
      cases busy <;>
        simp_all [prodTok, prodMid, drawCount_append, drawCount,
          CORE_CMD_IDLE_SET, CORE_CMD_LCD_LINE]
  | cons_pop_draw c rest hc hq hk =>
      simp only at hc hq
      subst hc hq
      cases busy <;>
        simp_all [consTok, drawCount, CORE_CMD_LCD_LINE]
      omega
  | cons_pop_idle c rest hc hq hk =>
      simp only at hc hq
      subst hc hq
      have hne : ¬c.cmd = CORE_CMD_LCD_LINE := by
        rw [hk]; decide
      cases busy <;> simp_all [consTok, drawCount]
  | cons_pop_other c rest hc hq hk1 hk2 =>
      simp only at hc hq
      subst hc hq
      cases busy <;> simp_all [consTok, drawCount]
  | cons_draw_done line hc =>
      simp only at hc
      subst hc
      cases busy <;> simp_all [consTok]

/-- Every reachable state of the two-core pipeline satisfies the system
invariant. -/
theorem reachable_inv {s : SysState} (h : Reachable s) : SysInv s := by
  induction h with
  | init =>
      simp [SysInv, init_state, outstanding, drawCount, prodTok, consTok, prodMid]
  | step hr hs ih => exact step_inv ih hs

/-- C1: mutual exclusion of draw commands — in every reachable state of
the two-core pipeline at most one draw command is outstanding, the busy
flag `lcd_line_busy` is set exactly while one is, and at the moment the
producer pushes a `CORE_CMD_LCD_LINE` command (having busy-waited for the
flag to clear and set it to 1 immediately before the push) no other draw
command is in the FIFO and the display core is not processing one: no
second draw command is ever enqueued while the flag is true, because the
one being pushed is the very command that set it. -/
theorem draw_line_mutual_exclusion (s : SysState) (hr : Reachable s) :
    outstanding s ≤ 1 ∧
    (s.lcd_line_busy = true ↔ outstanding s = 1) ∧
    (∀ line, s.prod = ProdPC.ppush line →
      s.lcd_line_busy = true ∧ drawCount s.fifo = 0 ∧ s.cons = ConsPC.cwait) := by
  obtain ⟨h1, h2⟩ := reachable_inv hr
  refine ⟨?_, ?_, ?_⟩
  · cases hb : s.lcd_line_busy <;> rw [hb] at h1 <;> simp at h1 <;> omega
  · cases hb : s.lcd_line_busy <;> rw [hb] at h1 <;> simp at h1 ⊢ <;> omega
  · intro line hp
    unfold outstanding at h1
    rw [hp] at h1
    simp only [prodTok] at h1
    cases hb : s.lcd_line_busy with
    | false =>
        rw [hb] at h1
        simp at h1
    | true =>
        rw [hb] at h1
        simp at h1
        refine ⟨rfl, by omega, ?_⟩
        cases hc : s.cons with
        | cwait => rfl
        | cdraw l =>
            rw [hc] at h1
            simp [consTok] at h1

/-- C10: the shared `pixels_buffer` is never written while a transfer is
outstanding — whenever the producer is about to copy a new scanline into
`pixels_buffer` (which is before the hash comparison, so this holds also
for lines that end up suppressed), the busy flag is clear, no draw command
is queued and the display core is idle; and the copy position is the only
point of the pipeline at which any step writes `pixels_buffer`. -/
theorem pixels_buffer_write_protected (s : SysState) (hr : Reachable s) :
    (∀ line px, s.prod = ProdPC.pcopy line px →
      s.lcd_line_busy = false ∧ outstanding s = 0 ∧
      drawCount s.fifo = 0 ∧ s.cons = ConsPC.cwait) ∧
    (∀ t, Step s t → t.pixels_buffer ≠ s.pixels_buffer →
      ∃ line px, s.prod = ProdPC.pcopy line px) := by
  obtain ⟨h1, h2⟩ := reachable_inv hr
  constructor
  · intro line px hp
    have h0 : outstanding s = 0 := by
      apply h2
      rw [hp]
      trivial
    have hb : s.lcd_line_busy = false := by
      cases hb : s.lcd_line_busy with
      | false => rfl
      | true => rw [hb] at h1; simp at h1; omega
    unfold outstanding at h0
    refine ⟨hb, by unfold outstanding; omega, by omega, ?_⟩
    cases hc : s.cons with
    | cwait => rfl
    | cdraw l => rw [hc] at h0; simp [consTok] at h0
  · intro t hstep hne
    cases hstep with
    | prod_begin_line line px hb hp hl hw => exact absurd rfl hne
    | prod_copy line px hp => exact ⟨line, px, hp⟩
    | prod_suppress line px hp hh => exact absurd rfl hne
    | prod_update line px hp hh => exact absurd rfl hne
    | prod_set_busy line hp => exact absurd rfl hne
    | prod_push line hp hroom => exact absurd rfl hne
    | prod_push_idle d hp hroom => exact absurd rfl hne
    | cons_pop_draw c rest hc hq hk => exact absurd rfl hne
    | cons_pop_idle c rest hc hq hk => exact absurd rfl hne
    | cons_pop_other c rest hc hq hk1 hk2 => exact absurd rfl hne
    | cons_draw_done line hc => exact absurd rfl hne

/-- A demonstration scanline: all bytes 1, full display width. -/
def demo_px : List Nat := List.replicate LCD_WIDTH 1

/-- The pipeline state after the producer observes the flag clear and
enters the copy phase for row 0. -/
def demo_s1 : SysState := { init_state with prod := ProdPC.pcopy 0 demo_px }

/-- The pipeline state after the hash-accumulating copy completed. -/
def demo_s2 : SysState :=
  { demo_s1 with pixels_buffer := demo_px, prod := ProdPC.pcheck 0 demo_px }

/-- The pipeline state after the hash mismatched and was stored. -/
def demo_s3 : SysState :=
  { demo_s2 with
      lcd_line_hashes := Function.update demo_s2.lcd_line_hashes 0 (sniff_hash demo_px),
      prod := ProdPC.psetbusy 0 }

/-- The pipeline state right after the producer set the busy flag, about
to push the draw command. -/
def demo_s4 : SysState :=
  { demo_s3 with lcd_line_busy := true, prod := ProdPC.ppush 0 }

/-- The copy phase for row 0 is reachable from startup. -/
theorem demo_reach1 : Reachable demo_s1 :=
  Reachable.step Reachable.init
    (Step.prod_begin_line init_state 0 demo_px rfl rfl (by decide)
      (by simp [demo_px]))

/-- The hash-check phase is reachable from startup. -/
theorem demo_reach2 : Reachable demo_s2 :=
  Reachable.step demo_reach1 (Step.prod_copy demo_s1 0 demo_px rfl)

/-- The flag-write phase is reachable from startup. -/
theorem demo_reach3 : Reachable demo_s3 :=
  Reachable.step demo_reach2
    (Step.prod_update demo_s2 0 demo_px rfl (by decide))

/-- The push phase, flag set, is reachable from startup. -/
theorem demo_reach4 : Reachable demo_s4 :=
  Reachable.step demo_reach3 (Step.prod_set_busy demo_s3 0 rfl)

/-- Witness for C1: in the concrete reachable state where the producer is
about to push row 0's draw command, the flag is set, the FIFO holds no
draw command and the display core is idle. -/
theorem draw_line_mutual_exclusion_witness :
    demo_s4.prod = ProdPC.ppush 0 ∧
    demo_s4.lcd_line_busy = true ∧ drawCount demo_s4.fifo = 0 ∧
    demo_s4.cons = ConsPC.cwait :=
  ⟨rfl, (draw_line_mutual_exclusion demo_s4 demo_reach4).2.2 0 rfl⟩

/-- Witness for C10: in the concrete reachable state where the producer is
about to copy row 0's scanline into `pixels_buffer`, the flag is clear and
nothing is outstanding. -/
theorem pixels_buffer_write_protected_witness :
    demo_s1.prod = ProdPC.pcopy 0 demo_px ∧
    demo_s1.lcd_line_busy = false ∧ outstanding demo_s1 = 0 ∧
    drawCount demo_s1.fifo = 0 ∧ demo_s1.cons = ConsPC.cwait :=
  ⟨rfl, (pixels_buffer_write_protected demo_s1 demo_reach1).1 0 demo_px rfl⟩

end PicoGB
